import Mathlib

/-!
Verification of the rulial-navigator CA engine and cellular-sheaf analyzer.

This file is a shallow embedding of the Python sources
`src/rulial/engine/totalistic.py` (class `Totalistic2DEngine`) and
`src/rulial/mapper/sheaf.py` (class `SheafAnalyzer`), together with proofs of
the specification's claims about them.

Modelling conventions:
* numpy `uint8` grids become `List (List Nat)` (row-major, like the arrays);
* Python `int` arithmetic is `Int`/`Nat` (Python `%` on a positive modulus
  agrees with Lean's `Int` `%`, i.e. `Int.emod`);
* Python floats become `ℝ` (exact real arithmetic; `ℚ` where the value is
  a ratio of integers);
* Python sets of digits become `List Nat` — the only operation the code
  performs on them is membership (`np.isin`), which lists model faithfully;
* fallible code (exceptions) returns `Option`/`Except`; an iterative sparse
  solver call (`scipy` `svds`/`eigsh`) is modelled as an oracle argument:
  `some v` is a converged solver result `v`, `none` is a raised exception.
-/

namespace Rulial

/-- A grid is a row-major list of rows of cell values (numpy 2-D `uint8` array). -/
abbrev Grid := List (List Nat)

/-- `grid[i][j]` with out-of-range access defaulting to `0` (all accesses in the
embedded code are in range). -/
def gridGet (g : Grid) (i j : Nat) : Nat := (g.getD i []).getD j 0

/-- Number of rows (`grid.shape[0]`). -/
def gridH (g : Grid) : Nat := g.length

/-- Number of columns (`grid.shape[1]`) read off the first row. -/
def gridW (g : Grid) : Nat := (g.headD []).length

/-- The grid is a well-formed `h × w` binary array: `h` rows, each of width `w`,
every cell `0` or `1`. -/
def wellFormed (g : Grid) (h w : Nat) : Prop :=
  g.length = h ∧ (∀ row ∈ g, row.length = w) ∧
    ∀ row ∈ g, ∀ c ∈ row, c = 0 ∨ c = 1

instance (g : Grid) (h w : Nat) : Decidable (wellFormed g h w) := by
  unfold wellFormed; infer_instance

/-- `np.sum` of a grid (total live mass for a binary grid). -/
def gridSum (g : Grid) : Nat := (g.map List.sum).sum

/-- A parsed rule: the two digit sets of `"B<digits>/S<digits>"`
(`self.born`, `self.survive`). -/
structure RuleSpec where
  born : List Nat
  survive : List Nat
deriving DecidableEq

/-- The Moore-neighborhood convolution kernel
`np.array([[1,1,1],[1,0,1],[1,1,1]])`. -/
def kernel : List (List Nat) := [[1, 1, 1], [1, 0, 1], [1, 1, 1]]

/-- One entry of `convolve2d(grid, kernel, mode="same", boundary="wrap")`.
The kernel is symmetric under negation of its offsets, so the convolution
coincides with the correlation written here; index `a` (resp. `b`) ranges over
`0,1,2` and addresses row `i + (a-1)` modulo `h` (written `i + h - 1 + a` to
stay in `Nat`), and likewise for columns. -/
def convNeighbors (g : Grid) (h w i j : Nat) : Nat :=
  ((List.range 3).map fun a =>
    ((List.range 3).map fun b =>
      (kernel.getD a []).getD b 0 *
        gridGet g ((i + h - 1 + a) % h) ((j + w - 1 + b) % w)).sum).sum

/-- The eight Moore offsets, as `(a, b)` kernel positions (center `(1,1)`
excluded). -/
def mooreOffsets : List (Nat × Nat) :=
  [(0, 0), (0, 1), (0, 2), (1, 0), (1, 2), (2, 0), (2, 1), (2, 2)]

/-- The toroidally-wrapped 8-neighbor Moore live count of cell `(i, j)`:
the number of the eight wrapped neighbor positions that hold a live cell. -/
def mooreCount (g : Grid) (h w i j : Nat) : Nat :=
  (mooreOffsets.filter fun p =>
    gridGet g ((i + h - 1 + p.1) % h) ((j + w - 1 + p.2) % w) = 1).length

/-- One output cell of `Totalistic2DEngine.step`:
`born_mask = isin(neighbors, born) & (grid == 0)`,
`survive_mask = isin(neighbors, survive) & (grid == 1)`,
`next = (born_mask | survive_mask).astype(uint8)`. -/
def stepCell (rs : RuleSpec) (g : Grid) (h w i j : Nat) : Nat :=
  if (convNeighbors g h w i j ∈ rs.born ∧ gridGet g i j = 0) ∨
      (convNeighbors g h w i j ∈ rs.survive ∧ gridGet g i j = 1) then 1 else 0

/-- `Totalistic2DEngine.step`: convolution neighbor count then vectorized rule
application, cell by cell. -/
def step (rs : RuleSpec) (g : Grid) : Grid :=
  (List.range (gridH g)).map fun i =>
    (List.range (gridW g)).map fun j =>
      stepCell rs g (gridH g) (gridW g) i j

/-- The chain `[step g, step (step g), …]` of length `n` (the body of the
`for t in range(1, steps)` loop in `simulate`). -/
def stepChain (rs : RuleSpec) (g : Grid) : Nat → List Grid
  | 0 => []
  | n + 1 => step rs g :: stepChain rs (step rs g) n

/-- `Totalistic2DEngine.simulate` with the generation-0 grid `g0` already
produced by `init_grid`: allocates `history = np.zeros((steps, h, w))`, writes
`history[0] = grid` (an `IndexError` — modelled as `none` — when `steps = 0`),
then fills `history[t] = step(history[t-1])` for `t = 1, …, steps-1`. -/
def simulate (rs : RuleSpec) (steps : Nat) (g0 : Grid) : Option (List Grid) :=
  if steps = 0 then none
  else some (g0 :: stepChain rs g0 (steps - 1))

/-- The all-zero `h × w` grid (`np.zeros((h, w))`). -/
def zeroGrid (h w : Nat) : Grid :=
  List.replicate h (List.replicate w 0)

/-- `np.zeros` with the single center seed `grid[h//2][w//2] = 1`
(the `else` branch of `init_grid`). -/
def centerSeedGrid (h w : Nat) : Grid :=
  (List.range h).map fun i =>
    (List.range w).map fun j =>
      if i = h / 2 ∧ j = w / 2 then 1 else 0

/-- The `init_condition` argument of `init_grid`.  The `"random"` mode draws
from `np.random` and is left abstract (no grid is produced for it here); any
string other than `"custom"`/`"random"` falls to the center-seed branch. -/
inductive InitCondition
  | randomCond
  | customCond
  | otherCond
deriving DecidableEq

/-- `Totalistic2DEngine.init_grid`: `"custom"` with a supplied grid copies it;
`"random"` samples (not modelled — `none`); everything else (including
`"custom"` with `custom_grid=None`) produces the center-seed grid. -/
def init_grid (height width : Nat) (cond : InitCondition)
    (customGrid : Option Grid) : Option Grid :=
  match cond, customGrid with
  | .customCond, some g => some g
  | .randomCond, _ => none
  | _, _ => some (centerSeedGrid height width)

/-! ### Rule-string parsing (`Totalistic2DEngine._parse_rule`) -/

/-- Python `str.split("/")` on a character list. -/
def splitOnSlash : List Char → List (List Char)
  | [] => [[]]
  | c :: rest =>
      if c = '/' then [] :: splitOnSlash rest
      else
        match splitOnSlash rest with
        | [] => [[c]]
        | p :: ps => (c :: p) :: ps

/-- Python `int(d)` on a single character: its digit value, or a raised
`ValueError` (`none`) when the character is not a digit. -/
def pyInt (c : Char) : Option Nat :=
  if c.isDigit then some (c.toNat - 48) else none

/-- `Totalistic2DEngine._parse_rule`: uppercase the string, split on `"/"`,
and for each part starting with `B` (resp. `S`) accumulate the digit values
into the born (resp. survive) set.  Sets are modelled as lists; the only
downstream operation is membership.  `none` models a raised `ValueError`
from `int(d)` on a non-digit character. -/
def parseRule (s : String) : Option (List Nat × List Nat) :=
  (splitOnSlash (s.toList.map Char.toUpper)).foldlM
    (fun (acc : List Nat × List Nat) p =>
      match p with
      | 'B' :: ds => do
          let l ← ds.mapM pyInt
          pure (acc.1 ++ l, acc.2)
      | 'S' :: ds => do
          let l ← ds.mapM pyInt
          pure (acc.1, acc.2 ++ l)
      | _ => pure acc)
    ([], [])

/-- `Totalistic2DEngine.__init__`: parse the rule string into the engine's
`(born, survive)` pair (`none` models a propagated parse exception). -/
def engineInit (s : String) : Option RuleSpec :=
  (parseRule s).map fun p => ⟨p.1, p.2⟩

/-- The empty rule, as `_parse_rule` produces it for `"B/S"`. -/
def ruleBS : RuleSpec := ⟨[], []⟩

/-- Game-of-Life rule `"B3/S23"`, used as concrete witness input. -/
def lifeRule : RuleSpec := ⟨[3], [2, 3]⟩

/-- A 3×3 binary grid holding a blinker row, used as concrete witness input. -/
def blinkerGrid : Grid := [[0, 0, 0], [1, 1, 1], [0, 0, 0]]

/-! ### Monodromy (`SheafAnalyzer._compute_monodromy`) -/

/-- The 32×32 seed: `np.zeros((32, 32))` with `cycle_grid[32 // 2, :] = 1`
(a horizontal band generating a torus cycle). -/
def cycleGrid : Grid :=
  (List.range 32).map fun i =>
    (List.range 32).map fun _ => if i = 32 / 2 then 1 else 0

/-- The bounded non-linearity applied to the growth ratio:
`tanh(ratio - 1)` outside the `[0.9, 1.1]` band, `0.0` inside it. -/
noncomputable def monodromyBand (r : ℝ) : ℝ :=
  if r > 1.1 then Real.tanh (r - 1)
  else if r < 0.9 then Real.tanh (r - 1)
  else 0

/-- The mass-ratio part of `_compute_monodromy`: `0.0` for an empty seed,
otherwise the banded non-linearity of `final_mass / initial_mass`. -/
noncomputable def monodromyCore (initialMass finalMass : Nat) : ℝ :=
  if initialMass = 0 then 0
  else monodromyBand ((finalMass : ℝ) / (initialMass : ℝ))

/-- `SheafAnalyzer._compute_monodromy`: evolve the 32×32 cycle seed for 10
generations with the engine and map the live-mass growth ratio through the
banded non-linearity. -/
noncomputable def computeMonodromy (rs : RuleSpec) : ℝ :=
  let history := (simulate rs 10 cycleGrid).getD []
  let evolved := history.getLastD []
  monodromyCore (gridSum cycleGrid) (gridSum evolved)

/-! ### Classification (`SheafAnalyzer._classify_sheaf`) -/

/-- `SheafAnalyzer._classify_sheaf`: the four-way decision tree on
`(monodromy, harmonic_overlap, spectral_gap)`; the third input is never
inspected, exactly as in the source. -/
noncomputable def classifySheaf (monodromy harmonicOverlap spectralGap : ℝ) :
    String :=
  if monodromy > 0.5 then
    if harmonicOverlap > 0.8 then "resonant-frozen" else "resonant-active"
  else if monodromy < -0.5 then "tense"
  else "mixed"

/-! ### Cohomology estimation (`SheafAnalyzer._compute_cohomology_sparse`)

The truncated sparse SVD (`svds`) is an oracle argument: `some s` is the
list of computed singular values, `none` a raised solver exception. -/

/-- `np.max` over the computed singular values (they are non-negative). -/
def maxQ (l : List ℚ) : ℚ := l.foldr max 0

/-- The rank estimate of `_compute_cohomology_sparse`:
`k = min(50, min(m, n) - 2)`; for `k > 0` and a converged solver, count
singular values above `1e-6 * max(s)` and linearly extrapolate by
`min(m, n) / k` (Python `int(...)` truncation of a non-negative value is
floor, i.e. `Nat` division); otherwise — `k ≤ 0` or a solver exception —
fall back to `n - 1`. -/
def rankOf (m n : Nat) (svals : Option (List ℚ)) : Int :=
  let k : Int := min 50 (min (m : Int) (n : Int) - 2)
  if 0 < k then
    match svals with
    | some s =>
        let tol : ℚ := if 0 < s.length then (1e-6 : ℚ) * maxQ s else 1e-6
        let cnt := (s.filter fun x => tol < x).length
        ((cnt * min m n) / k.toNat : Nat)
    | none => (n : Int) - 1
  else (n : Int) - 1

/-- `_compute_cohomology_sparse` on a coboundary operator of shape
`(m, n) = (n_edges, n_nodes)`: `h0 = max(1, n - rank)` and
`h1 = max(0, m - rank)` (Python ints, i.e. `Int`). -/
def computeCohomology (m n : Nat) (svals : Option (List ℚ)) : Int × Int :=
  (max 1 ((n : Int) - rankOf m n svals),
   max 0 ((m : Int) - rankOf m n svals))

/-! ### Hodge decomposition (`SheafAnalyzer._compute_hodge_decomposition`)

Vectors are `List ℝ`; the sparse eigensolver (`eigsh`) is an oracle:
`some er` is a converged result with its eigenvalue list and the list of
eigenvector columns, `none` a raised exception. -/

/-- `np.linalg.norm` squared. -/
noncomputable def sumSq (v : List ℝ) : ℝ := (v.map fun x => x ^ 2).sum

/-- `np.linalg.norm`. -/
noncomputable def l2norm (v : List ℝ) : ℝ := Real.sqrt (sumSq v)

/-- `np.dot`. -/
noncomputable def dotL (u v : List ℝ) : ℝ := (List.zipWith (· * ·) u v).sum

/-- Scalar · vector. -/
noncomputable def scaleL (c : ℝ) (v : List ℝ) : List ℝ := v.map fun x => c * x

/-- Componentwise difference. -/
noncomputable def subL (u v : List ℝ) : List ℝ := List.zipWith (· - ·) u v

/-- Componentwise sum. -/
noncomputable def addL (u v : List ℝ) : List ℝ := List.zipWith (· + ·) u v

/-- `np.mean`. -/
noncomputable def meanL (v : List ℝ) : ℝ := v.sum / (v.length : ℝ)

/-- Sum of a list of `n`-vectors (matrix–vector reconstruction
`kernel_vecs @ coeffs`). -/
noncomputable def sumVecs (n : Nat) (vs : List (List ℝ)) : List ℝ :=
  vs.foldl addL (List.replicate n 0)

/-- A converged `eigsh` call: eigenvalues and the corresponding eigenvector
columns. -/
structure EigshResult where
  eigenvals : List ℝ
  eigenvecs : List (List ℝ)

/-- `SheafAnalyzer._compute_hodge_decomposition` on the flattened signal `f`
and an `n`-node Laplacian.  Faithful control flow: resize `f` to length `n`;
return `(0.0, 0.0)` below the `1e-10` norm threshold; for `k < 1` use the
mean-vector approximation directly; otherwise consult the eigensolver.  On a
converged solve, project onto the kernel eigenvectors (or the single smallest
eigenvector when none lie within tolerance).  On a solver exception the
source's `except` block assigns only `f_mean`/`f_harmonic` and then executes
`return harmonic_overlap, gradient_norm` — two locals never assigned on that
path — so the call raises `UnboundLocalError`; that raised error is modelled
as `.error ()`. -/
noncomputable def hodgeDecomposition (f : List ℝ) (n : Nat)
    (eig : Option EigshResult) : Except Unit (ℝ × ℝ) :=
  let f1 := if n < f.length then f.take n
            else f ++ List.replicate (n - f.length) 0
  let fnorm := l2norm f1
  if fnorm < 1e-10 then .ok (0, 0)
  else
    let fn := f1.map fun x => x / fnorm
    let k : Int := min 10 ((n : Int) - 2)
    if k < 1 then
      let fmean := meanL fn
      let fharm := List.replicate n (fmean / Real.sqrt (n : ℝ))
      let ho := |dotL fn fharm|
      .ok (ho, Real.sqrt (1 - ho ^ 2))
    else
      match eig with
      | some er =>
          let kvecs :=
            ((er.eigenvals.zip er.eigenvecs).filter fun p =>
              |p.1| < 1e-6).map Prod.snd
          let fharm :=
            if kvecs.length ≠ 0 then
              sumVecs n (kvecs.map fun v => scaleL (dotL v fn) v)
            else
              scaleL (dotL (er.eigenvecs.headD []) fn) (er.eigenvecs.headD [])
          let fhnorm := l2norm fharm
          if fhnorm < 1e-10 then .ok (0, 1)
          else .ok (fhnorm, l2norm (subL fn fharm))
      | none => .error ()

/-! ### Graph structures (`SheafAnalyzer._build_*`, `_get_cached_structures`) -/

/-- The four directed offsets `[(0, 1), (1, 0), (1, 1), (1, -1)]` used to
enumerate each undirected edge once. -/
def offsets4 : List (Int × Int) := [(0, 1), (1, 0), (1, 1), (1, -1)]

/-- The edge emitted (or not) by `_build_coboundary_sparse` for cell `(i, j)`
and one offset: wrap the neighbor coordinates with Python `%` (Lean `Int`
`%` agrees for positive moduli) and keep the pair only when the neighbor's
flat index exceeds the source's. -/
def edgeFor (h w i j : Nat) (d : Int × Int) : List (Nat × Nat) :=
  let ni := ((i : Int) + d.1) % (h : Int)
  let nj := ((j : Int) + d.2) % (w : Int)
  let idx := i * w + j
  let nidx := (ni * (w : Int) + nj).toNat
  if idx < nidx then [(idx, nidx)] else []

/-- All edges emitted for one cell, in the source's offset order
(the inner loop of `_build_coboundary_sparse`, unrolled). -/
def cellEdges (h w i j : Nat) : List (Nat × Nat) :=
  edgeFor h w i j (0, 1) ++ edgeFor h w i j (1, 0) ++
    edgeFor h w i j (1, 1) ++ edgeFor h w i j (1, -1)

/-- The full edge list of the coboundary operator δ₀ (each list element is
one matrix row, `-1` at the first and `+1` at the second endpoint column). -/
def coboundaryEdges (h w : Nat) : List (Nat × Nat) :=
  ((List.range h).map fun i =>
    ((List.range w).map fun j => cellEdges h w i j).flatten).flatten

/-- The number of edge rows `m` returned by `_build_coboundary_sparse`. -/
def nEdges (h w : Nat) : Nat := (coboundaryEdges h w).length

/-- All eight Moore offsets in the adjacency builder's loop order. -/
def mooreOffsetsInt : List (Int × Int) :=
  [(-1, -1), (-1, 0), (-1, 1), (0, -1), (0, 1), (1, -1), (1, 0), (1, 1)]

/-- Entry `(u, v)` of the adjacency matrix built by
`_build_adjacency_sparse`: the CSR constructor sums duplicate `(row, col)`
triplets, and all triplets with row `u` come from cell
`(u / w, u % w)`, so the entry is the number of the eight wrapped offsets of
that cell that land on flat index `v` (0 outside the matrix shape). -/
def adjEntry (h w u v : Nat) : Nat :=
  if u < h * w ∧ v < h * w ∧ 0 < w then
    (mooreOffsetsInt.filter fun d =>
      (((((u / w : Nat) : Int) + d.1) % (h : Int)) * (w : Int) +
        ((((u % w : Nat) : Int) + d.2) % (w : Int))).toNat = v).length
  else 0

/-- Row sum of the adjacency matrix (the degree diagonal of `L = D - A`). -/
def degreeOf (h w u : Nat) : Nat :=
  ∑ v ∈ Finset.range (h * w), adjEntry h w u v

/-- The immutable bundle built per grid shape: adjacency entries, Laplacian
entries `L = D - A`, and the coboundary edge list. -/
structure GraphStructure where
  adj : Nat → Nat → Nat
  lap : Nat → Nat → Int
  delta0 : List (Nat × Nat)

/-- A fresh build of all three structures for shape `(h, w)`. -/
def buildStructures (h w : Nat) : GraphStructure where
  adj := adjEntry h w
  lap := fun u v =>
    (if u = v then (degreeOf h w u : Int) else 0) - (adjEntry h w u v : Int)
  delta0 := coboundaryEdges h w

/-- The cache key `size_key = h * 10000 + w` of `_get_cached_structures`. -/
def sizeKey (h w : Nat) : Nat := h * 10000 + w

/-- `_get_cached_structures`: when the stored key differs from the requested
one (or nothing is cached), rebuild and store; otherwise return the cached
bundle.  Returns the new cache state and the structures handed to the
caller. -/
def getCachedStructures (st : Option (Nat × GraphStructure)) (h w : Nat) :
    Option (Nat × GraphStructure) × GraphStructure :=
  match st with
  | some (key, s) =>
      if key = sizeKey h w then (some (key, s), s)
      else (some (sizeKey h w, buildStructures h w), buildStructures h w)
  | none => (some (sizeKey h w, buildStructures h w), buildStructures h w)

/-! ### Engine lemmas -/

/-- Every cell of a well-formed grid reads `0` or `1` (out-of-range reads
default to `0`). -/
theorem gridGet_zero_or_one {g : Grid} {h w : Nat} (hg : wellFormed g h w)
    (i j : Nat) : gridGet g i j = 0 ∨ gridGet g i j = 1 := by
  unfold gridGet
  rcases Nat.lt_or_ge i g.length with hi | hi
  · have hrow : g.getD i [] ∈ g := by
      rw [List.getD_eq_getElem _ _ hi]
      exact List.getElem_mem hi
    rcases Nat.lt_or_ge j (g.getD i []).length with hj | hj
    · have hc : (g.getD i []).getD j 0 ∈ g.getD i [] := by
        rw [List.getD_eq_getElem _ _ hj]
        exact List.getElem_mem hj
      exact hg.2.2 _ hrow _ hc
    · left; exact List.getD_eq_default _ _ hj
  · left
    rw [List.getD_eq_default _ _ hi]
    rfl

/-- A sum of `0`/`1` values is the number of `1`s among them. -/
theorem sum_map_eq_count_ones {α : Type} (l : List α) (f : α → Nat)
    (hf : ∀ x ∈ l, f x = 0 ∨ f x = 1) :
    (l.map f).sum = (l.filter fun x => f x = 1).length := by
  induction l with
  | nil => rfl
  | cons a t ih =>
    have ha := hf a (List.mem_cons_self _ _)
    have ht := ih fun x hx => hf x (List.mem_cons_of_mem _ hx)
    rcases ha with h0 | h1
    · have : ¬ (f a = 1) := by omega
      simp [List.filter_cons, this, h0, ht]
    · simp [List.filter_cons, h1, ht]
      omega

/-- On a well-formed binary grid the convolution with the Moore kernel computes
exactly the toroidally-wrapped 8-neighbor live count. -/
theorem convNeighbors_eq_mooreCount {g : Grid} {h w : Nat}
    (hg : wellFormed g h w) (i j : Nat) :
    convNeighbors g h w i j = mooreCount g h w i j := by
  have hmap : convNeighbors g h w i j =
      ((mooreOffsets.map fun p =>
        gridGet g ((i + h - 1 + p.1) % h) ((j + w - 1 + p.2) % w))).sum := by
    have h3 : List.range 3 = [0, 1, 2] := rfl
    simp only [convNeighbors, mooreOffsets, h3, List.map_cons, List.map_nil,
      List.sum_cons, List.sum_nil, kernel, List.getD]
    simp
    ring
  rw [hmap, mooreCount]
  exact sum_map_eq_count_ones _ _ fun p _ => gridGet_zero_or_one hg _ _

/-- For positive height, a well-formed grid's read-off width is `w`. -/
theorem gridW_of_wellFormed {g : Grid} {h w : Nat} (hg : wellFormed g h w)
    (hh : 0 < h) : gridW g = w := by
  obtain ⟨hl, hr, -⟩ := hg
  cases g with
  | nil => simp at hl; omega
  | cons r t => exact hr r (List.mem_cons_self _ _)

/-- Reading a cell of a grid built as a double `map` over index ranges. -/
theorem gridGet_map_range (f : Nat → Nat → Nat) (h w i j : Nat)
    (hi : i < h) (hj : j < w) :
    gridGet ((List.range h).map fun a => (List.range w).map fun b => f a b)
      i j = f i j := by
  unfold gridGet
  have h1 : ((List.range h).map fun a =>
      (List.range w).map fun b => f a b).getD i [] =
      (List.range w).map fun b => f i b := by
    rw [List.getD_eq_getElem _ _ (by simpa using hi)]
    rw [List.getElem_map, List.getElem_range]
  rw [h1]
  rw [List.getD_eq_getElem _ _ (by simpa using hj)]
  rw [List.getElem_map, List.getElem_range]

/-- C1. `step` maps a well-formed `h × w` binary grid to a grid of the same
shape in which a cell is `1` exactly when (it is dead and its wrapped Moore
live count is in `born`) or (it is alive and that count is in `survive`), and
`0` otherwise.  `step` is a Lean function, hence total and deterministic. -/
theorem step_spec (h w : Nat) (rs : RuleSpec) (g : Grid)
    (hg : wellFormed g h w) :
    gridH (step rs g) = h ∧
    (∀ row ∈ step rs g, row.length = w) ∧
    ∀ i j, i < h → j < w →
      gridGet (step rs g) i j =
        if (gridGet g i j = 0 ∧ mooreCount g h w i j ∈ rs.born) ∨
            (gridGet g i j = 1 ∧ mooreCount g h w i j ∈ rs.survive)
        then 1 else 0 := by
  have hH : gridH g = h := hg.1
  refine ⟨?_, ?_, ?_⟩
  · simpa [step, gridH] using hH
  · intro row hrow
    simp only [step, hH, List.mem_map] at hrow
    obtain ⟨i, hi, rfl⟩ := hrow
    have hh : 0 < h := by
      rcases Nat.eq_zero_or_pos h with h0 | h0
      · subst h0; simp at hi
      · exact h0
    simp [gridW_of_wellFormed hg hh]
  · intro i j hi hj
    have hh : 0 < h := Nat.lt_of_le_of_lt (Nat.zero_le _) hi
    have hW : gridW g = w := gridW_of_wellFormed hg hh
    have hstep : gridGet (step rs g) i j = stepCell rs g h w i j := by
      unfold step
      rw [hH, hW]
      exact gridGet_map_range _ h w i j hi hj
    rw [hstep]
    unfold stepCell
    simp only [convNeighbors_eq_mooreCount hg]
    exact if_congr (by tauto) rfl rfl

/-- Witness for `step_spec`: the Life rule on the 3×3 blinker grid. -/
theorem step_spec_witness :
    wellFormed blinkerGrid 3 3 ∧
    gridGet (step lifeRule blinkerGrid) 1 1 =
      (if (gridGet blinkerGrid 1 1 = 0 ∧
            mooreCount blinkerGrid 3 3 1 1 ∈ lifeRule.born) ∨
          (gridGet blinkerGrid 1 1 = 1 ∧
            mooreCount blinkerGrid 3 3 1 1 ∈ lifeRule.survive)
       then 1 else 0) :=
  ⟨by decide,
    (step_spec 3 3 lifeRule blinkerGrid (by decide)).2.2 1 1 (by decide)
      (by decide)⟩

/-- The simulation history chain has exactly the requested length. -/
theorem stepChain_length (rs : RuleSpec) (g : Grid) (n : Nat) :
    (stepChain rs g n).length = n := by
  induction n generalizing g with
  | zero => rfl
  | succ n ih => simp [stepChain, ih]

/-- Each history entry past generation 0 is `step` of its predecessor. -/
theorem stepChain_getD_succ (rs : RuleSpec) :
    ∀ (t n : Nat) (g : Grid), t + 1 ≤ n →
      (g :: stepChain rs g n).getD (t + 1) [] =
        step rs ((g :: stepChain rs g n).getD t []) := by
  intro t
  induction t with
  | zero =>
    intro n g hn
    match n, hn with
    | n + 1, _ => simp [stepChain]
  | succ t ih =>
    intro n g hn
    match n, hn with
    | n + 1, hn =>
      have h := ih n (step rs g) (by omega)
      simpa [stepChain] using h

/-- C3 (amended). For `steps ≥ 1`, `simulate` returns exactly `steps` grids
(not `steps + 1`): generation 0 is the initializer's grid and each subsequent
generation is `step` of its predecessor.  (`steps = 0` raises, modelled as
`none`.) -/
theorem simulate_spec (rs : RuleSpec) (steps : Nat) (g0 : Grid)
    (hs : 1 ≤ steps) :
    ((simulate rs steps g0).getD []).length = steps ∧
    ((simulate rs steps g0).getD []).getD 0 [] = g0 ∧
    ∀ t, t + 1 < steps →
      ((simulate rs steps g0).getD []).getD (t + 1) [] =
        step rs (((simulate rs steps g0).getD []).getD t []) := by
  have h0 : steps ≠ 0 := by omega
  have hsim : (simulate rs steps g0).getD [] =
      g0 :: stepChain rs g0 (steps - 1) := by
    simp [simulate, h0]
  rw [hsim]
  refine ⟨?_, rfl, ?_⟩
  · simp [stepChain_length]
    omega
  · intro t ht
    exact stepChain_getD_succ rs t (steps - 1) g0 (by omega)

/-- C3 counterexample: at `steps = 3` the history holds 3 grids, not
`3 + 1`. -/
theorem simulate_length_counterexample :
    (simulate lifeRule 3 blinkerGrid).map List.length = some 3 ∧
    (3 : Nat) ≠ 3 + 1 :=
  ⟨by decide, by decide⟩

/-- Witness for `simulate_spec`: two steps from the center-seed initializer
grid. -/
theorem simulate_spec_witness :
    init_grid 3 3 .otherCond none = some (centerSeedGrid 3 3) ∧
    ((simulate lifeRule 2 (centerSeedGrid 3 3)).getD []).length = 2 ∧
    ((simulate lifeRule 2 (centerSeedGrid 3 3)).getD []).getD 0 [] =
      centerSeedGrid 3 3 :=
  ⟨rfl, (simulate_spec lifeRule 2 (centerSeedGrid 3 3) (by decide)).1,
    (simulate_spec lifeRule 2 (centerSeedGrid 3 3) (by decide)).2.1⟩

/-! ### The empty rule kills every grid in one step -/

/-- Under the empty rule every output cell is dead. -/
theorem stepCell_empty (g : Grid) (h w i j : Nat) :
    stepCell ruleBS g h w i j = 0 := by
  simp [stepCell, ruleBS]

/-- One step of the empty rule has zero live mass. -/
theorem gridSum_step_empty (g : Grid) : gridSum (step ruleBS g) = 0 := by
  simp [gridSum, step, stepCell_empty, List.map_map, Function.comp]

/-- The last history entry of a run of ≥ 1 steps is `step` of some grid. -/
theorem chain_getLastD_is_step (rs : RuleSpec) :
    ∀ (n : Nat) (g : Grid), 1 ≤ n →
      ∃ g', (g :: stepChain rs g n).getLastD [] = step rs g' := by
  intro n
  induction n with
  | zero => intro g hg; omega
  | succ n ih =>
    intro g _
    cases n with
    | zero => exact ⟨g, by simp [stepChain]⟩
    | succ m =>
      obtain ⟨g', hg'⟩ := ih (step rs g) (by omega)
      exact ⟨g', by simpa [stepChain] using hg'⟩

/-- After ≥ 1 steps of the empty rule the final grid is all-dead. -/
theorem gridSum_history_last_empty (g : Grid) (n : Nat) (hn : 1 ≤ n) :
    gridSum ((g :: stepChain ruleBS g n).getLastD []) = 0 := by
  obtain ⟨g', hg'⟩ := chain_getLastD_is_step ruleBS n g hn
  rw [hg', gridSum_step_empty]

/-! ### Bounds on `tanh` -/

/-- `tanh x < 1` for every real `x`. -/
theorem tanh_lt_one_real (x : ℝ) : Real.tanh x < 1 := by
  rw [Real.tanh_eq_sinh_div_cosh, div_lt_one (Real.cosh_pos x)]
  exact Real.sinh_lt_cosh x

/-- `-1 < tanh x` for every real `x`. -/
theorem neg_one_lt_tanh_real (x : ℝ) : -1 < Real.tanh x := by
  rw [Real.tanh_eq_sinh_div_cosh, lt_div_iff₀ (Real.cosh_pos x)]
  have h := Real.sinh_lt_cosh (-x)
  rw [Real.sinh_neg, Real.cosh_neg] at h
  linarith

/-- `tanh 1 > 1/2` (since `e ≥ 2`, so `e² > 3`). -/
theorem half_lt_tanh_one : 1 / 2 < Real.tanh 1 := by
  rw [Real.tanh_eq_sinh_div_cosh, Real.sinh_eq, Real.cosh_eq]
  have ha : (2 : ℝ) ≤ Real.exp 1 := by
    have := Real.add_one_le_exp 1; linarith
  have hb : 0 < Real.exp (-1) := Real.exp_pos _
  have hab : Real.exp 1 * Real.exp (-1) = 1 := by
    rw [← Real.exp_add]; norm_num
  have hden : (0 : ℝ) < (Real.exp 1 + Real.exp (-1)) / 2 := by positivity
  rw [div_lt_div_iff₀ (by norm_num) hden]
  nlinarith [mul_nonneg hb.le (sub_nonneg.mpr ha)]

/-- `tanh (-1) < -1/2`. -/
theorem tanh_neg_one_lt_neg_half : Real.tanh (-1) < -(1 / 2) := by
  rw [Real.tanh_neg]
  linarith [half_lt_tanh_one]

/-- The monodromy estimator's value on the empty rule: the 32-cell seed band
dies, the growth ratio is `0`, and the band map yields `tanh (0 - 1)`. -/
theorem computeMonodromy_BS : computeMonodromy ruleBS = Real.tanh (-1) := by
  have hsim : (simulate ruleBS 10 cycleGrid).getD [] =
      cycleGrid :: stepChain ruleBS cycleGrid 9 := by
    simp [simulate]
  have hsum :
      gridSum (((simulate ruleBS 10 cycleGrid).getD []).getLastD []) = 0 := by
    rw [hsim]
    exact gridSum_history_last_empty cycleGrid 9 (by omega)
  have hcycle : gridSum cycleGrid = 32 := by decide
  have hdef : computeMonodromy ruleBS =
      monodromyCore (gridSum cycleGrid)
        (gridSum (((simulate ruleBS 10 cycleGrid).getD []).getLastD [])) := rfl
  rw [hdef, hsum, hcycle]
  unfold monodromyCore monodromyBand
  rw [if_neg (by norm_num)]
  norm_num

/-- C2 counterexample: for rule `"B/S"` the monodromy index is not `0.0` and
the classifier label is `"tense"`, not `"mixed"`. -/
theorem analyze_BS_counterexample :
    engineInit "B/S" = some ruleBS ∧
    computeMonodromy ruleBS ≠ 0 ∧
    classifySheaf (computeMonodromy ruleBS) (1 / 2) (1 / 5) = "tense" ∧
    ("tense" : String) ≠ "mixed" := by
  have hm := computeMonodromy_BS
  have hlt := tanh_neg_one_lt_neg_half
  refine ⟨by decide, ?_, ?_, by decide⟩
  · rw [hm]
    intro he
    rw [he] at hlt
    norm_num at hlt
  · rw [hm]
    unfold classifySheaf
    rw [if_neg (by norm_num at hlt ⊢; linarith), if_pos (by norm_num at hlt ⊢; linarith)]

/-- C2 (amended).  Analyzing `"B/S"` end to end: parsing yields the empty
rule; every simulation of the pipeline's 50 generations ends all-dead
(`final_live_count = 0`); the monodromy index is `tanh (-1)` (the seed band
dies, giving growth ratio `0`), which lies in `(-1, -1/2)`; hence the
classifier labels the rule `"tense"` for every harmonic-overlap and
spectral-gap input. -/
theorem analyze_BS_amended :
    engineInit "B/S" = some ruleBS ∧
    (∀ g0 l, simulate ruleBS 50 g0 = some l → gridSum (l.getLastD []) = 0) ∧
    computeMonodromy ruleBS = Real.tanh (-1) ∧
    ∀ ho sg : ℝ, classifySheaf (computeMonodromy ruleBS) ho sg = "tense" := by
  have hlt := tanh_neg_one_lt_neg_half
  refine ⟨by decide, ?_, computeMonodromy_BS, ?_⟩
  · intro g0 l hl
    simp only [simulate, if_neg (by norm_num : (50 : Nat) ≠ 0),
      Option.some_inj] at hl
    subst hl
    exact gridSum_history_last_empty g0 49 (by omega)
  · intro ho sg
    rw [computeMonodromy_BS]
    unfold classifySheaf
    rw [if_neg (by norm_num at hlt ⊢; linarith), if_pos (by norm_num at hlt ⊢; linarith)]

/-- Witness for `analyze_BS_amended`: the 3×3 blinker as generation-0 grid
and concrete classifier inputs. -/
theorem analyze_BS_amended_witness :
    gridSum ((blinkerGrid :: stepChain ruleBS blinkerGrid 49).getLastD [])
      = 0 ∧
    classifySheaf (computeMonodromy ruleBS) 0 0 = "tense" :=
  ⟨analyze_BS_amended.2.1 blinkerGrid
      (blinkerGrid :: stepChain ruleBS blinkerGrid 49) rfl,
    analyze_BS_amended.2.2.2 0 0⟩

/-- C7.  The monodromy map returns exactly `0` when the initial mass is `0`
and when the growth ratio lies in the band `[0.9, 1.1]`; for every other
finite ratio it returns `tanh (ratio - 1)`, strictly inside `(-1, 1)` and
never exactly `±1`. -/
theorem monodromy_band_spec (im fm : Nat) (r : ℝ) :
    (im = 0 → monodromyCore im fm = 0) ∧
    (0.9 ≤ r → r ≤ 1.1 → monodromyBand r = 0) ∧
    ((r < 0.9 ∨ 1.1 < r) →
      monodromyBand r = Real.tanh (r - 1) ∧
      -1 < monodromyBand r ∧ monodromyBand r < 1 ∧
      monodromyBand r ≠ -1 ∧ monodromyBand r ≠ 1) := by
  refine ⟨fun h => by simp [monodromyCore, h], fun h1 h2 => ?_, fun h => ?_⟩
  · unfold monodromyBand
    rw [if_neg (by linarith), if_neg (by linarith)]
  · have heq : monodromyBand r = Real.tanh (r - 1) := by
      unfold monodromyBand
      rcases h with h | h
      · rw [if_neg (by linarith), if_pos h]
      · rw [if_pos h]
    rw [heq]
    exact ⟨rfl, neg_one_lt_tanh_real _, tanh_lt_one_real _,
      (neg_one_lt_tanh_real _).ne', (tanh_lt_one_real _).ne⟩

/-- Witness for `monodromy_band_spec`: empty seed and ratio `1`. -/
theorem monodromy_band_spec_witness :
    monodromyCore 0 7 = 0 ∧ monodromyBand 1 = 0 :=
  ⟨(monodromy_band_spec 0 7 1).1 rfl,
    (monodromy_band_spec 0 7 1).2.1 (by norm_num) (by norm_num)⟩

/-- C8.  The classifier is a pure, total, deterministic map of its three real
inputs into exactly the four labels, following the source's decision order
(`spectral_gap` is never consulted); as a Lean function it cannot throw. -/
theorem classifySheaf_spec (m ho sg : ℝ) :
    (m > 0.5 → ho > 0.8 → classifySheaf m ho sg = "resonant-frozen") ∧
    (m > 0.5 → ¬ ho > 0.8 → classifySheaf m ho sg = "resonant-active") ∧
    (m < -0.5 → classifySheaf m ho sg = "tense") ∧
    (¬ m > 0.5 → ¬ m < -0.5 → classifySheaf m ho sg = "mixed") ∧
    (classifySheaf m ho sg = "resonant-frozen" ∨
      classifySheaf m ho sg = "resonant-active" ∨
      classifySheaf m ho sg = "tense" ∨
      classifySheaf m ho sg = "mixed") := by
  unfold classifySheaf
  refine ⟨fun h1 h2 => ?_, fun h1 h2 => ?_, fun h3 => ?_,
    fun h1 h3 => ?_, ?_⟩
  · rw [if_pos h1, if_pos h2]
  · rw [if_pos h1, if_neg h2]
  · have h1 : ¬ m > 0.5 := by norm_num at h3 ⊢; linarith
    rw [if_neg h1, if_pos h3]
  · rw [if_neg h1, if_neg h3]
  · split_ifs <;> simp

/-- Witness for `classifySheaf_spec` at `(0, 0, 0)`. -/
theorem classifySheaf_spec_witness : classifySheaf 0 0 0 = "mixed" :=
  (classifySheaf_spec 0 0 0).2.2.2.1 (by norm_num) (by norm_num)

/-! ### Rule parsing accepts out-of-range digits (C5) -/

/-- A Moore live count never exceeds 8. -/
theorem mooreCount_le_eight (g : Grid) (h w i j : Nat) :
    mooreCount g h w i j ≤ 8 := by
  have hle := List.length_filter_le
    (fun p : Nat × Nat =>
      decide (gridGet g ((i + h - 1 + p.1) % h) ((j + w - 1 + p.2) % w) = 1))
    mooreOffsets
  simpa [mooreCount, mooreOffsets] using hle

/-- C5 counterexample: constructing from `"B9/S"` (digit `9` out of `0..8`)
does not signal a malformed-rule error — the engine is built, with `9`
silently stored in the born set. -/
theorem parse_out_of_range_counterexample :
    engineInit "B9/S" = some ⟨[9], []⟩ ∧ engineInit "B9/S" ≠ none := by
  exact ⟨by decide, by decide⟩

/-- C5 (amended).  An out-of-range digit is silently accepted, never
rejected: `"B9/S"` parses to born set `{9}`.  The stray digit is inert — on
every well-formed grid, Moore counts are at most 8, so adding `9` to the born
set never changes `step`. -/
theorem parse_out_of_range_amended :
    engineInit "B9/S" = some ⟨[9], []⟩ ∧
    ∀ (born surv : List Nat) (h w : Nat) (g : Grid), wellFormed g h w →
      step ⟨9 :: born, surv⟩ g = step ⟨born, surv⟩ g := by
  refine ⟨by decide, ?_⟩
  intro born surv h w g hg
  unfold step
  apply List.map_congr_left
  intro i hi
  apply List.map_congr_left
  intro j hj
  have hH : gridH g = h := hg.1
  have hh : 0 < h := by
    rw [← hH]
    exact Nat.lt_of_le_of_lt (Nat.zero_le _) (List.mem_range.mp hi)
  have hW : gridW g = w := gridW_of_wellFormed hg hh
  unfold stepCell
  rw [hH, hW, convNeighbors_eq_mooreCount hg]
  have h9 : mooreCount g h w i j ≠ 9 := by
    have := mooreCount_le_eight g h w i j; omega
  exact if_congr (by simp [List.mem_cons, h9]) rfl rfl

/-- Witness for `parse_out_of_range_amended`: the blinker grid. -/
theorem parse_out_of_range_amended_witness :
    wellFormed blinkerGrid 3 3 ∧
    step ⟨[9], []⟩ blinkerGrid = step ⟨[], []⟩ blinkerGrid :=
  ⟨by decide,
    parse_out_of_range_amended.2 [] [] 3 3 blinkerGrid (by decide)⟩

/-! ### Cohomology estimation (C9) -/

/-- C9.  The estimator returns `h0 = max(1, n − rank)` and
`h1 = max(0, m − rank)`; a raised solver (`none`) in the `k > 0` regime falls
back to `rank = n − 1` instead of propagating an error; and `h0 ≥ 1` for
every input shape and solver outcome. -/
theorem cohomology_spec (m n : Nat) (svals : Option (List ℚ)) :
    computeCohomology m n svals =
      (max 1 ((n : Int) - rankOf m n svals),
        max 0 ((m : Int) - rankOf m n svals)) ∧
    (0 < min 50 (min (m : Int) (n : Int) - 2) →
      rankOf m n none = (n : Int) - 1) ∧
    1 ≤ (computeCohomology m n svals).1 := by
  refine ⟨rfl, fun hk => ?_, le_max_left _ _⟩
  simp only [rankOf, if_pos hk]

/-- Witness for `cohomology_spec` at `(m, n) = (24, 9)` with a raised
solver. -/
theorem cohomology_spec_witness :
    rankOf 24 9 none = 8 ∧ 1 ≤ (computeCohomology 24 9 none).1 := by
  have h := (cohomology_spec 24 9 none).2.1 (by norm_num)
  exact ⟨by rw [h]; norm_num, (cohomology_spec 24 9 none).2.2⟩

/-! ### Hodge decomposition (C6) -/

/-- C6 (code bug).  The zero-norm guard does return `(0.0, 0.0)`, but on an
eigensolver exception the source's `except` block assigns only
`f_mean`/`f_harmonic` and then runs `return harmonic_overlap, gradient_norm`
— two locals that are never assigned on that path — so the call raises
`UnboundLocalError` (modelled as `.error ()`) instead of returning the
documented mean-vector fallback pair. -/
theorem hodge_exception_bug :
    hodgeDecomposition [0, 0, 0, 0] 4 none = .ok (0, 0) ∧
    hodgeDecomposition [1, 0, 0, 0] 4 none = .error () := by
  constructor
  · unfold hodgeDecomposition
    norm_num [l2norm, sumSq, Real.sqrt_zero]
  · unfold hodgeDecomposition
    norm_num [l2norm, sumSq, Real.sqrt_one]

/-! ### Coboundary edge counting (C4) -/

/-- Length of one offset's contribution, given the neighbor's flat index. -/
theorem edgeFor_length (h w i j : Nat) (d : Int × Int) (val : Nat)
    (hval : ((((i : Int) + d.1) % (h : Int)) * (w : Int) +
      (((j : Int) + d.2) % (w : Int))).toNat = val) :
    (edgeFor h w i j d).length = if i * w + j < val then 1 else 0 := by
  simp only [edgeFor, hval]
  split_ifs <;> simp

/-- Offset `(0, 1)` (east) contributes except at the right wrap column. -/
theorem edgeFor_len_e (h w i j : Nat) (hi : i < h) (hj : j < w) :
    (edgeFor h w i j (0, 1)).length = if j + 1 < w then 1 else 0 := by
  rcases Nat.lt_or_ge (j + 1) w with hlt | hge
  · have hval : ((((i : Int) + (0, 1).1) % (h : Int)) * (w : Int) +
        (((j : Int) + (0, 1).2) % (w : Int))).toNat = i * w + (j + 1) := by
      have h1 : ((i : Int) + 0) % (h : Int) = (i : Int) := by
        rw [add_zero]
        exact Int.emod_eq_of_lt (by positivity) (by exact_mod_cast hi)
      have h2 : ((j : Int) + 1) % (w : Int) = ((j + 1 : Nat) : Int) := by
        push_cast
        exact Int.emod_eq_of_lt (by positivity) (by exact_mod_cast hlt)
      show ((((i : Int) + 0) % (h : Int)) * (w : Int) +
        (((j : Int) + 1) % (w : Int))).toNat = i * w + (j + 1)
      rw [h1, h2]
      rw [show (i : Int) * (w : Int) + ((j + 1 : Nat) : Int) =
        ((i * w + (j + 1) : Nat) : Int) by push_cast; ring]
      exact Int.toNat_natCast _
    rw [edgeFor_length h w i j (0, 1) _ hval, if_pos hlt,
      if_pos (Nat.add_lt_add_left (by omega) _)]
  · have hval : ((((i : Int) + (0, 1).1) % (h : Int)) * (w : Int) +
        (((j : Int) + (0, 1).2) % (w : Int))).toNat = i * w := by
      have h1 : ((i : Int) + 0) % (h : Int) = (i : Int) := by
        rw [add_zero]
        exact Int.emod_eq_of_lt (by positivity) (by exact_mod_cast hi)
      have hjw : j + 1 = w := by omega
      have h2 : ((j : Int) + 1) % (w : Int) = 0 := by
        rw [show ((j : Int) + 1) = ((w : Int)) by omega]
        exact Int.emod_self
      show ((((i : Int) + 0) % (h : Int)) * (w : Int) +
        (((j : Int) + 1) % (w : Int))).toNat = i * w
      rw [h1, h2, add_zero]
      rw [show (i : Int) * (w : Int) = ((i * w : Nat) : Int) by push_cast; ring]
      exact Int.toNat_natCast _
    rw [edgeFor_length h w i j (0, 1) _ hval, if_neg (by omega),
      if_neg (by omega)]

/-- Offset `(1, 0)` (south) contributes except at the bottom wrap row. -/
theorem edgeFor_len_s (h w i j : Nat) (hi : i < h) (hj : j < w) :
    (edgeFor h w i j (1, 0)).length = if i + 1 < h then 1 else 0 := by
  have h2 : ((j : Int) + 0) % (w : Int) = ((j : Nat) : Int) := by
    rw [add_zero]
    exact Int.emod_eq_of_lt (by positivity) (by exact_mod_cast hj)
  rcases Nat.lt_or_ge (i + 1) h with hlt | hge
  · have h1 : ((i : Int) + 1) % (h : Int) = ((i + 1 : Nat) : Int) := by
      push_cast
      exact Int.emod_eq_of_lt (by positivity) (by exact_mod_cast hlt)
    have hval : ((((i : Int) + (1, 0).1) % (h : Int)) * (w : Int) +
        (((j : Int) + (1, 0).2) % (w : Int))).toNat = i * w + w + j := by
      show ((((i : Int) + 1) % (h : Int)) * (w : Int) +
        (((j : Int) + 0) % (w : Int))).toNat = i * w + w + j
      rw [h1, h2]
      rw [show ((i + 1 : Nat) : Int) * (w : Int) + ((j : Nat) : Int) =
        ((i * w + w + j : Nat) : Int) by push_cast; ring]
      exact Int.toNat_natCast _
    rw [edgeFor_length h w i j (1, 0) _ hval, if_pos hlt,
      if_pos (by omega)]
  · have h1 : ((i : Int) + 1) % (h : Int) = 0 := by
      rw [show ((i : Int) + 1) = ((h : Int)) by omega]
      exact Int.emod_self
    have hval : ((((i : Int) + (1, 0).1) % (h : Int)) * (w : Int) +
        (((j : Int) + (1, 0).2) % (w : Int))).toNat = j := by
      show ((((i : Int) + 1) % (h : Int)) * (w : Int) +
        (((j : Int) + 0) % (w : Int))).toNat = j
      rw [h1, h2, zero_mul, zero_add]
      exact Int.toNat_natCast _
    rw [edgeFor_length h w i j (1, 0) _ hval, if_neg (by omega),
      if_neg (by omega)]

/-- Offset `(1, 1)` (southeast) contributes except at the bottom wrap row. -/
theorem edgeFor_len_se (h w i j : Nat) (hh : 3 ≤ h) (hi : i < h)
    (hj : j < w) :
    (edgeFor h w i j (1, 1)).length = if i + 1 < h then 1 else 0 := by
  rcases Nat.lt_or_ge (i + 1) h with hlt | hge
  · have h1 : ((i : Int) + 1) % (h : Int) = ((i + 1 : Nat) : Int) := by
      push_cast
      exact Int.emod_eq_of_lt (by positivity) (by exact_mod_cast hlt)
    rcases Nat.lt_or_ge (j + 1) w with hjl | hjg
    · have h2 : ((j : Int) + 1) % (w : Int) = ((j + 1 : Nat) : Int) := by
        push_cast
        exact Int.emod_eq_of_lt (by positivity) (by exact_mod_cast hjl)
      have hval : ((((i : Int) + (1, 1).1) % (h : Int)) * (w : Int) +
          (((j : Int) + (1, 1).2) % (w : Int))).toNat
          = i * w + w + (j + 1) := by
        show ((((i : Int) + 1) % (h : Int)) * (w : Int) +
          (((j : Int) + 1) % (w : Int))).toNat = i * w + w + (j + 1)
        rw [h1, h2]
        rw [show ((i + 1 : Nat) : Int) * (w : Int) + ((j + 1 : Nat) : Int) =
          ((i * w + w + (j + 1) : Nat) : Int) by push_cast; ring]
        exact Int.toNat_natCast _
      rw [edgeFor_length h w i j (1, 1) _ hval, if_pos hlt,
        if_pos (by omega)]
    · have h2 : ((j : Int) + 1) % (w : Int) = 0 := by
        rw [show ((j : Int) + 1) = ((w : Int)) by omega]
        exact Int.emod_self
      have hval : ((((i : Int) + (1, 1).1) % (h : Int)) * (w : Int) +
          (((j : Int) + (1, 1).2) % (w : Int))).toNat = i * w + w := by
        show ((((i : Int) + 1) % (h : Int)) * (w : Int) +
          (((j : Int) + 1) % (w : Int))).toNat = i * w + w
        rw [h1, h2, add_zero]
        rw [show ((i + 1 : Nat) : Int) * (w : Int) =
          ((i * w + w : Nat) : Int) by push_cast; ring]
        exact Int.toNat_natCast _
      rw [edgeFor_length h w i j (1, 1) _ hval, if_pos hlt,
        if_pos (by omega)]
  · have h1 : ((i : Int) + 1) % (h : Int) = 0 := by
      rw [show ((i : Int) + 1) = ((h : Int)) by omega]
      exact Int.emod_self
    have hiw : 0 < i * w := Nat.mul_pos (by omega) (by omega)
    rcases Nat.lt_or_ge (j + 1) w with hjl | hjg
    · have h2 : ((j : Int) + 1) % (w : Int) = ((j + 1 : Nat) : Int) := by
        push_cast
        exact Int.emod_eq_of_lt (by positivity) (by exact_mod_cast hjl)
      have hval : ((((i : Int) + (1, 1).1) % (h : Int)) * (w : Int) +
          (((j : Int) + (1, 1).2) % (w : Int))).toNat = j + 1 := by
        show ((((i : Int) + 1) % (h : Int)) * (w : Int) +
          (((j : Int) + 1) % (w : Int))).toNat = j + 1
        rw [h1, h2, zero_mul, zero_add]
        exact Int.toNat_natCast _
      rw [edgeFor_length h w i j (1, 1) _ hval, if_neg (by omega),
        if_neg (by omega)]
    · have h2 : ((j : Int) + 1) % (w : Int) = 0 := by
        rw [show ((j : Int) + 1) = ((w : Int)) by omega]
        exact Int.emod_self
      have hval : ((((i : Int) + (1, 1).1) % (h : Int)) * (w : Int) +
          (((j : Int) + (1, 1).2) % (w : Int))).toNat = 0 := by
        show ((((i : Int) + 1) % (h : Int)) * (w : Int) +
          (((j : Int) + 1) % (w : Int))).toNat = 0
        rw [h1, h2, zero_mul, zero_add]
        rfl
      rw [edgeFor_length h w i j (1, 1) _ hval, if_neg (by omega),
        if_neg (by omega)]

/-- Offset `(1, -1)` (southwest) contributes except at the bottom wrap row. -/
theorem edgeFor_len_sw (h w i j : Nat) (hh : 3 ≤ h) (hw : 3 ≤ w)
    (hi : i < h) (hj : j < w) :
    (edgeFor h w i j (1, -1)).length = if i + 1 < h then 1 else 0 := by
  have hjm : ((j : Int) + (-1)) % (w : Int) =
      if j = 0 then ((w - 1 : Nat) : Int) else ((j - 1 : Nat) : Int) := by
    split_ifs with h0
    · subst h0
      rw [show ((0 : Nat) : Int) + (-1) =
        ((w - 1 : Nat) : Int) + (w : Int) * (-1) by omega]
      rw [Int.add_mul_emod_self_left]
      exact Int.emod_eq_of_lt (by positivity) (by omega)
    · rw [show ((j : Int) + (-1)) = ((j - 1 : Nat) : Int) by omega]
      exact Int.emod_eq_of_lt (by positivity) (by omega)
  rcases Nat.lt_or_ge (i + 1) h with hlt | hge
  · have h1 : ((i : Int) + 1) % (h : Int) = ((i + 1 : Nat) : Int) := by
      push_cast
      exact Int.emod_eq_of_lt (by positivity) (by exact_mod_cast hlt)
    rcases Nat.eq_zero_or_pos j with h0 | h0
    · have hval : ((((i : Int) + (1, -1).1) % (h : Int)) * (w : Int) +
          (((j : Int) + (1, -1).2) % (w : Int))).toNat
          = i * w + w + (w - 1) := by
        show ((((i : Int) + 1) % (h : Int)) * (w : Int) +
          (((j : Int) + (-1)) % (w : Int))).toNat = i * w + w + (w - 1)
        rw [h1, hjm, if_pos h0]
        rw [show ((i + 1 : Nat) : Int) * (w : Int) + ((w - 1 : Nat) : Int) =
          ((i * w + w + (w - 1) : Nat) : Int) by
            push_cast [Nat.cast_sub (show 1 ≤ w by omega)]; ring]
        exact Int.toNat_natCast _
      rw [edgeFor_length h w i j (1, -1) _ hval, if_pos hlt,
        if_pos (by omega)]
    · have hval : ((((i : Int) + (1, -1).1) % (h : Int)) * (w : Int) +
          (((j : Int) + (1, -1).2) % (w : Int))).toNat
          = i * w + w + (j - 1) := by
        show ((((i : Int) + 1) % (h : Int)) * (w : Int) +
          (((j : Int) + (-1)) % (w : Int))).toNat = i * w + w + (j - 1)
        rw [h1, hjm, if_neg (by omega)]
        rw [show ((i + 1 : Nat) : Int) * (w : Int) + ((j - 1 : Nat) : Int) =
          ((i * w + w + (j - 1) : Nat) : Int) by
            push_cast [Nat.cast_sub (show 1 ≤ j by omega)]; ring]
        exact Int.toNat_natCast _
      rw [edgeFor_length h w i j (1, -1) _ hval, if_pos hlt,
        if_pos (by omega)]
  · have h1 : ((i : Int) + 1) % (h : Int) = 0 := by
      rw [show ((i : Int) + 1) = ((h : Int)) by omega]
      exact Int.emod_self
    have hwle : w ≤ i * w := Nat.le_mul_of_pos_left w (by omega)
    rcases Nat.eq_zero_or_pos j with h0 | h0
    · have hval : ((((i : Int) + (1, -1).1) % (h : Int)) * (w : Int) +
          (((j : Int) + (1, -1).2) % (w : Int))).toNat = w - 1 := by
        show ((((i : Int) + 1) % (h : Int)) * (w : Int) +
          (((j : Int) + (-1)) % (w : Int))).toNat = w - 1
        rw [h1, hjm, if_pos h0, zero_mul, zero_add]
        exact Int.toNat_natCast _
      rw [edgeFor_length h w i j (1, -1) _ hval, if_neg (by omega),
        if_neg (by omega)]
    · have hval : ((((i : Int) + (1, -1).1) % (h : Int)) * (w : Int) +
          (((j : Int) + (1, -1).2) % (w : Int))).toNat = j - 1 := by
        show ((((i : Int) + 1) % (h : Int)) * (w : Int) +
          (((j : Int) + (-1)) % (w : Int))).toNat = j - 1
        rw [h1, hjm, if_neg (by omega), zero_mul, zero_add]
        exact Int.toNat_natCast _
      rw [edgeFor_length h w i j (1, -1) _ hval, if_neg (by omega),
        if_neg (by omega)]

/-- Per-cell edge count: the eastward edge exists except at the right wrap
column, and the three southward edges exist except at the bottom wrap row. -/
theorem cellEdges_length (h w i j : Nat) (hh : 3 ≤ h) (hw : 3 ≤ w)
    (hi : i < h) (hj : j < w) :
    (cellEdges h w i j).length =
      (if j + 1 < w then 1 else 0) + (if i + 1 < h then 3 else 0) := by
  unfold cellEdges
  rw [List.length_append, List.length_append, List.length_append]
  rw [edgeFor_len_e h w i j hi hj, edgeFor_len_s h w i j hi hj,
    edgeFor_len_se h w i j hh hi hj, edgeFor_len_sw h w i j hh hw hi hj]
  split_ifs <;> norm_num

/-- Sums distribute over pointwise addition of mapped functions. -/
theorem sum_map_add_nat {α : Type} (l : List α) (f g : α → Nat) :
    (l.map fun x => f x + g x).sum = (l.map f).sum + (l.map g).sum := by
  induction l with
  | nil => rfl
  | cons a t ih =>
    simp only [List.map_cons, List.sum_cons, ih]
    omega

/-- Sum of a constant over an index range. -/
theorem sum_range_const (n c : Nat) :
    ((List.range n).map fun _ => c).sum = n * c := by
  induction n with
  | zero => simp
  | succ m ih =>
    rw [List.range_succ, List.map_append, List.sum_append, ih]
    simp [Nat.succ_mul]

/-- Sum of the indicator of "not the last index" over an index range. -/
theorem sum_range_guard (n c : Nat) :
    ((List.range n).map fun i => if i + 1 < n then c else 0).sum
      = (n - 1) * c := by
  cases n with
  | zero => simp
  | succ m =>
    rw [List.range_succ, List.map_append, List.sum_append]
    have hcongr : ((List.range m).map fun i =>
        if i + 1 < m + 1 then c else 0) = (List.range m).map fun _ => c :=
      List.map_congr_left fun i hil => by
        rw [if_pos (by have := List.mem_range.mp hil; omega)]
    rw [hcongr, sum_range_const]
    simp

/-- C4 (amended).  For `h, w ≥ 3` the coboundary operator has exactly
`4hw − h − 3w` edge rows (stated without subtraction as
`n_edges + h + 3w = 4hw`): the orientation filter `nidx > idx` drops the
wrap-crossing pairs whose neighbor flat index is smaller, so the count falls
short of the graph's `4hw` undirected edges and is not symmetric in
`(h, w)`. -/
theorem nEdges_formula (h w : Nat) (hh : 3 ≤ h) (hw : 3 ≤ w) :
    nEdges h w + h + 3 * w = 4 * (h * w) := by
  have hrow : ∀ i ∈ List.range h,
      (((List.range w).map fun j => cellEdges h w i j).flatten).length
        = (w - 1) + w * (if i + 1 < h then 3 else 0) := by
    intro i hil
    have hi : i < h := List.mem_range.mp hil
    rw [List.length_flatten, List.map_map]
    have hcongr : ((List.range w).map
        (List.length ∘ fun j => cellEdges h w i j)) = (List.range w).map
        fun j => (if j + 1 < w then 1 else 0) +
          (if i + 1 < h then 3 else 0) :=
      List.map_congr_left fun j hjl => by
        exact cellEdges_length h w i j hh hw hi (List.mem_range.mp hjl)
    rw [hcongr, sum_map_add_nat]
    have hband : ((List.range w).map fun j =>
        if j + 1 < w then 1 else 0).sum = w - 1 := by
      have := sum_range_guard w 1
      simpa using this
    rw [hband, sum_range_const]
  have htot : nEdges h w =
      ((List.range h).map fun i =>
        (w - 1) + w * (if i + 1 < h then 3 else 0)).sum := by
    unfold nEdges coboundaryEdges
    rw [List.length_flatten, List.map_map]
    exact congrArg List.sum (List.map_congr_left hrow)
  rw [htot, sum_map_add_nat]
  have h1 : ((List.range h).map fun _ => w - 1).sum = h * (w - 1) :=
    sum_range_const h (w - 1)
  have h2 : ((List.range h).map fun i =>
      w * (if i + 1 < h then 3 else 0)).sum = (h - 1) * (w * 3) := by
    have hcongr : ((List.range h).map fun i =>
        w * (if i + 1 < h then 3 else 0)) = (List.range h).map fun i =>
        if i + 1 < h then w * 3 else 0 :=
      List.map_congr_left fun i _ => by split_ifs <;> simp
    rw [hcongr]
    exact sum_range_guard h (w * 3)
  rw [h1, h2]
  obtain ⟨h', rfl⟩ : ∃ h', h = h' + 1 := ⟨h - 1, by omega⟩
  obtain ⟨w', rfl⟩ : ∃ w', w = w' + 1 := ⟨w - 1, by omega⟩
  simp only [Nat.add_sub_cancel]
  ring

/-- C4 counterexample: at `(H, W) = (3, 4)` the coboundary has 33 edge rows,
not `4·3·4 = 48`, and the swapped shape `(4, 3)` has 35, so the counts are
not equal either. -/
theorem nEdges_counterexample :
    nEdges 3 4 = 33 ∧ nEdges 4 3 = 35 ∧ nEdges 3 4 ≠ 4 * 3 * 4 ∧
      nEdges 3 4 ≠ nEdges 4 3 := by
  refine ⟨by decide, by decide, by decide, by decide⟩

/-- Witness for `nEdges_formula` at `(3, 3)`: `24 + 3 + 9 = 36`. -/
theorem nEdges_formula_witness :
    nEdges 3 3 + 3 + 3 * 3 = 4 * (3 * 3) :=
  nEdges_formula 3 3 (by decide) (by decide)

/-! ### Structure cache (C10) -/

/-- C10 counterexample: the distinct shapes `(1, 20000)` and `(2, 10000)`
share cache key `30000`.  After caching the first, a request for the second
returns the first's structures: adjacency entry `(0, 1)` reads `3` (a
height-1 torus stacks three offsets on one neighbor) where a fresh build for
`(2, 10000)` gives `1`. -/
theorem cache_collision_counterexample :
    (getCachedStructures (getCachedStructures none 1 20000).1 2 10000).2.adj
      0 1 = 3 ∧
    (buildStructures 2 10000).adj 0 1 = 1 ∧
    (getCachedStructures (getCachedStructures none 1 20000).1 2 10000).2 ≠
      buildStructures 2 10000 := by
  have h1 : (getCachedStructures (getCachedStructures none 1 20000).1
      2 10000).2.adj 0 1 = 3 := by decide
  have h2 : (buildStructures 2 10000).adj 0 1 = 1 := by decide
  refine ⟨h1, h2, fun heq => ?_⟩
  rw [heq] at h1
  have h31 : (3 : Nat) = 1 := h1.symm.trans h2
  exact absurd h31 (by decide)

/-- C10 (amended).  The cache key `h·10000 + w` distinguishes all shapes
whose width is below 10000: for those, caching never conflates distinct
shapes and the returned structures always equal a fresh build.  Shapes with
width ≥ 10000 can collide on the key (e.g. `(1, 20000)` vs `(2, 10000)`) and
then the cached structures of the other shape are returned. -/
theorem cache_spec (h0 w0 h w : Nat) (hw0 : w0 < 10000) (hw : w < 10000) :
    (getCachedStructures none h w).2 = buildStructures h w ∧
    (getCachedStructures (some (sizeKey h w, buildStructures h w)) h w).2 =
      buildStructures h w ∧
    ((h0, w0) ≠ (h, w) →
      (getCachedStructures
        (some (sizeKey h0 w0, buildStructures h0 w0)) h w).2 =
        buildStructures h w) := by
  refine ⟨rfl, ?_, ?_⟩
  · simp [getCachedStructures]
  · intro hne
    have hkey : sizeKey h0 w0 ≠ sizeKey h w := by
      unfold sizeKey
      intro he
      apply hne
      have hp : h0 = h ∧ w0 = w := by omega
      simp [hp.1, hp.2]
    simp [getCachedStructures, hkey]

/-- Witness for `cache_spec`: shape `(4, 5)` requested after `(2, 3)` was
cached. -/
theorem cache_spec_witness :
    (getCachedStructures (some (sizeKey 2 3, buildStructures 2 3)) 4 5).2 =
      buildStructures 4 5 :=
  (cache_spec 2 3 4 5 (by decide) (by decide)).2.2 (by decide)

end Rulial
